import Mathlib

/-!
Verification of the full-page capture and stitching core of the CRF capture
tool (`src/app.py`, class `PageCapturer`).  The slice planner, snapshot
acquisition loop, compositor, temporary-artifact cleanup and the cached
viewport-snapshot-height state are embedded as pure Lean functions, and the
specified properties are settled against them.
-/

namespace CrfCapture

/-- A pixel value (abstract RGB). -/
abbrev Pixel := ℕ

/-- An in-memory bitmap: a width, a height and a pixel function
(reads outside the stated extent are unspecified but total). -/
structure Image where
  width : ℕ
  height : ℕ
  pixel : ℕ → ℕ → Pixel

/-- `Image.new('RGB', (w, h))`: a fresh all-black bitmap (app.py line 174). -/
def Image.new (w h : ℕ) : Image := ⟨w, h, fun _ _ => 0⟩

/-- `img.crop((l, t, r, b))`: the rectangle with corners `(l, t)` and `(r, b)`. -/
def Image.crop (img : Image) (l t r b : ℕ) : Image :=
  ⟨r - l, b - t, fun x y => img.pixel (l + x) (t + y)⟩

/-- `canvas.paste(img, (x0, y0))`: overwrite the rectangle of `canvas` covered
by `img` placed at `(x0, y0)`; pixels outside that rectangle are unchanged. -/
def Image.paste (canvas img : Image) (x0 y0 : ℕ) : Image :=
  ⟨canvas.width, canvas.height, fun x y =>
    if x0 ≤ x ∧ x < x0 + img.width ∧ y0 ≤ y ∧ y < y0 + img.height
    then img.pixel (x - x0) (y - y0) else canvas.pixel x y⟩

/-- Whether a planned slice is one of the full-viewport slices or the
cropped final slice. -/
inductive SliceKind
  | full
  | final
deriving DecidableEq, Repr

/-- One entry of the slice plan: the literal argument the code passes to
`window.scrollTo` (an integer, possibly negative), and the slice kind. -/
structure Slice where
  scroll_target : ℤ
  kind : SliceKind
deriving DecidableEq, Repr

/-- `num_full_scrolls = full_height // self.actual_screenshot_height`
(app.py line 147). -/
def num_full_scrolls (H S : ℕ) : ℕ := H / S

/-- `remaining_height = full_height % self.actual_screenshot_height`
(app.py line 148). -/
def remaining_height (H S : ℕ) : ℕ := H % S

/-- The slice plan of `capture_full_page` (app.py lines 153-162): one full
slice scrolled to `i * S` for each `i < num_full_scrolls`, then, only when
`remaining_height > 0`, one final slice scrolled to `full_height - S`. -/
def slice_plan (H S : ℕ) : List Slice :=
  ((List.range (num_full_scrolls H S)).map fun i =>
      ⟨((i * S : ℕ) : ℤ), SliceKind.full⟩)
    ++ (if 0 < remaining_height H S then
          [⟨(H : ℤ) - (S : ℤ), SliceKind.final⟩]
        else [])

/-- Modelled from the spec: the rendering collaborator's snapshot primitive
(`snapshot() -> bitmap`, fixed width, height = ViewportSnapshotHeight): a
snapshot taken with the document scrolled to `pos` shows, in its viewport
row `r`, the document row `pos + r`. -/
def snapshotAt (doc : ℕ → ℕ → Pixel) (W S pos : ℕ) : Image :=
  ⟨W, S, fun x r => doc x (pos + r)⟩

/-- The capture-time crop of the final slice (app.py lines 166-169):
`crop_y = img.height - remaining_height`, keeping only the bottom
`remaining_height` rows. -/
def crop_final (img : Image) (rem : ℕ) : Image :=
  img.crop 0 (img.height - rem) img.width img.height

/-- The list of screenshots appended during the acquisition loop
(app.py lines 149-170): one snapshot scrolled to `i * S` for each full
scroll, then, when `remaining_height > 0`, the final snapshot scrolled to
`full_height - S` (the browser clamps a negative target to 0, which `ℤ.toNat`
mirrors), cropped to its bottom `remaining_height` rows. -/
def acquire_screenshots (doc : ℕ → ℕ → Pixel) (W H S : ℕ) : List Image :=
  ((List.range (num_full_scrolls H S)).map fun i => snapshotAt doc W S (i * S))
    ++ (if 0 < remaining_height H S then
          [crop_final (snapshotAt doc W S (((H : ℤ) - (S : ℤ)).toNat))
            (remaining_height H S)]
        else [])

/-- The image actually pasted for one loop entry (app.py lines 178-179): the
last screenshot (`rest = []`) is cropped again to its bottom
`remaining_height` rows when `remaining_height > 0`; other screenshots are
pasted as read. -/
def stitch_entry (rem : ℕ) (img : Image) (rest : List Image) : Image :=
  if rest.isEmpty = true ∧ 0 < rem
  then img.crop 0 (img.height - rem) img.width img.height
  else img

/-- The amount `y_offset` advances by for one screenshot:
`paste_height = min(img.height, full_height - y_offset)` (app.py line 180). -/
def paste_height (rem H : ℕ) (img : Image) (rest : List Image) (y : ℕ) : ℕ :=
  min (stitch_entry rem img rest).height (H - y)

/-- The stitching loop of `capture_full_page` (app.py lines 175-184): walk the
screenshots tracking `y_offset`; each entry is pasted at `(0, y_offset)`,
`y_offset` advances by `paste_height`, and the loop breaks once
`y_offset >= full_height`. -/
def stitch_loop (rem H : ℕ) : List Image → ℕ → Image → Image
  | [], _, canvas => canvas
  | img :: rest, y, canvas =>
      if H ≤ y + paste_height rem H img rest y
      then canvas.paste (stitch_entry rem img rest) 0 y
      else stitch_loop rem H rest (y + paste_height rem H img rest y)
             (canvas.paste (stitch_entry rem img rest) 0 y)

/-- The compositor (app.py lines 172-185 and 192): on a nonempty screenshot
list, stitch onto a fresh `(full_width, full_height)` canvas and defensively
crop the result to `(0, 0, full_width, full_height)`; on an empty list the
function falls through and returns `None`. -/
def capture_composite (screenshots : List Image) (W H rem : ℕ) : Option Image :=
  if screenshots.isEmpty = true then none
  else some ((stitch_loop rem H screenshots 0 (Image.new W H)).crop 0 0 W H)

/-- `PageCapturer.capture_full_page` restricted to its pure capture/stitch
core (app.py lines 147-192), over an abstract document pixel function. -/
def capture_full_page (doc : ℕ → ℕ → Pixel) (W H S : ℕ) : Option Image :=
  capture_composite (acquire_screenshots doc W H S) W H (remaining_height H S)

/-- The temporary file names appended to `screenshots` during acquisition
(app.py lines 156-158 and 164-170): `temp_<crf>_<i>.png` for each full scroll
and `temp_<crf>_final.png` when `remaining_height > 0`. -/
def temp_paths (crf : String) (H S : ℕ) : List String :=
  ((List.range (num_full_scrolls H S)).map fun i =>
      "temp_" ++ crf ++ "_" ++ toString i ++ ".png")
    ++ (if 0 < remaining_height H S then ["temp_" ++ crf ++ "_final.png"]
        else [])

/-- Modelled from the spec: an exception may abort the acquisition loop
("success or failure paths"); `failAfter = some k` means the call raised
after `k` screenshot files had been saved and appended, `none` means the
loop ran to completion. The recorded artifacts are the list `screenshots`
held when the `finally` block runs. -/
def recorded_paths (paths : List String) (failAfter : Option ℕ) : List String :=
  match failAfter with
  | none => paths
  | some k => paths.take k

/-- The cleanup loop of the `finally` block (app.py lines 186-190): for each
recorded path, delete it from the filesystem if present. -/
def cleanup_temp (screenshots : List String) (fs : List String) : List String :=
  screenshots.foldl (fun acc p => acc.filter fun q => decide (q ≠ p)) fs

/-- The filesystem after one `capture_full_page` call: the saved screenshot
files are present when the `finally` block starts, and the cleanup loop then
runs over the recorded list, on the success path (`failAfter = none`) and on
every exception path alike. -/
def fs_after_capture (crf : String) (H S : ℕ) (failAfter : Option ℕ)
    (fs : List String) : List String :=
  cleanup_temp (recorded_paths (temp_paths crf H S) failAfter)
    (fs ++ recorded_paths (temp_paths crf H S) failAfter)

/-- Pixel-identity of two bitmaps: same extent and the same pixel value at
every coordinate. -/
def Image.equiv (a b : Image) : Prop :=
  a.width = b.width ∧ a.height = b.height ∧ ∀ x y, a.pixel x y = b.pixel x y

/-- `self.actual_screenshot_height = None` (app.py line 91). -/
def init_screenshot_height : Option ℕ := none

/-- The Python truthiness test `not self.actual_screenshot_height`
(app.py line 140): true for `None` and for 0. -/
def falsy_height : Option ℕ → Bool
  | none => true
  | some n => decide (n = 0)

/-- The cached-height update of one `capture_full_page` call
(app.py lines 139-145): when the cached value is falsy, take a discovery
snapshot of height `probe` and store it; otherwise leave the cache alone. -/
def update_screenshot_height (cached : Option ℕ) (probe : ℕ) : Option ℕ :=
  if falsy_height cached then some probe else cached

/-- C1: for `H, S > 0` the plan has `H / S` full slices at scroll offsets
`0, S, …, (H/S - 1)·S` in order, a final slice at `H - S` exactly when
`H % S > 0`, `num_full_scrolls·S + (H - num_full_scrolls·S) = H`, and no
planned offset exceeds `H - S` when a final slice exists. -/
theorem slice_plan_spec (H S : ℕ) (hH : 0 < H) (hS : 0 < S) :
    (slice_plan H S).length
        = num_full_scrolls H S + (if 0 < remaining_height H S then 1 else 0)
      ∧ (∀ i, i < num_full_scrolls H S →
          (slice_plan H S).getD i ⟨0, SliceKind.final⟩
            = ⟨((i * S : ℕ) : ℤ), SliceKind.full⟩)
      ∧ (0 < remaining_height H S →
          (slice_plan H S).getLast?
            = some ⟨(H : ℤ) - (S : ℤ), SliceKind.final⟩)
      ∧ (remaining_height H S = 0 →
          ∀ sl ∈ slice_plan H S, sl.kind = SliceKind.full)
      ∧ num_full_scrolls H S * S + (H - num_full_scrolls H S * S) = H
      ∧ (0 < remaining_height H S →
          ∀ sl ∈ slice_plan H S, sl.scroll_target ≤ (H : ℤ) - (S : ℤ)) := by
  have hdiv : num_full_scrolls H S * S ≤ H := Nat.div_mul_le_self H S
  refine ⟨?_, ?_, ?_, ?_, ?_, ?_⟩
  · unfold slice_plan
    rcases Nat.eq_zero_or_pos (remaining_height H S) with h0 | hpos
    · simp [h0]
    · simp [hpos]
  · intro i hi
    unfold slice_plan
    simp [List.getD_eq_getElem?_getD, List.getElem?_append, List.getElem?_range, hi]
  · intro hpos
    unfold slice_plan
    rw [if_pos hpos, List.getLast?_concat]
  · intro h0 sl hsl
    unfold slice_plan at hsl
    rw [if_neg (by simp [h0]), List.append_nil] at hsl
    obtain ⟨i, _, rfl⟩ := List.mem_map.1 hsl
    rfl
  · omega
  · intro hpos sl hsl
    unfold slice_plan at hsl
    rw [if_pos hpos] at hsl
    rcases List.mem_append.1 hsl with hmem | hmem
    · obtain ⟨i, hi, rfl⟩ := List.mem_map.1 hmem
      simp only [List.mem_range] at hi
      have h1 : (i + 1) * S ≤ num_full_scrolls H S * S :=
        Nat.mul_le_mul_right S hi
      have : (i + 1) * S ≤ H := le_trans h1 hdiv
      simp only []
      push_cast
      nlinarith
    · simp only [List.mem_singleton] at hmem
      subst hmem
      simp

/-- C7: with `H = 1000, S = 400` the plan is full slices at 0 and 400 and a
final slice at 600 with remainder 200; with `H = 800, S = 400` it is full
slices at 0 and 400 with no final slice and remainder 0. -/
theorem example_plans :
    slice_plan 1000 400
        = [⟨0, SliceKind.full⟩, ⟨400, SliceKind.full⟩, ⟨600, SliceKind.final⟩]
      ∧ remaining_height 1000 400 = 200
      ∧ slice_plan 800 400 = [⟨0, SliceKind.full⟩, ⟨400, SliceKind.full⟩]
      ∧ remaining_height 800 400 = 0 := by
  refine ⟨?_, by decide, ?_, by decide⟩ <;> decide

/-- C2 counterexample: at `H = S = 400` the plan is one full slice, not one
final slice; at `H = 300, S = 400` the final slice's scroll target is `-100`,
not 0. -/
theorem short_page_plan_cex :
    slice_plan 400 400 = [⟨0, SliceKind.full⟩]
      ∧ slice_plan 400 400 ≠ [⟨0, SliceKind.final⟩]
      ∧ slice_plan 300 400 = [⟨(-100 : ℤ), SliceKind.final⟩]
      ∧ slice_plan 300 400 ≠ [⟨0, SliceKind.final⟩] := by
  refine ⟨by decide, by decide, by decide, by decide⟩

/-- C2 amended: for `0 < H < S` the plan is exactly one final slice whose
scroll target is the nonpositive integer `H - S` (the browser clamps the
actual scroll to 0), with `remaining_height = H` governing the compositor's
crop; for `H = S` the plan is exactly one full slice at offset 0 and
`remaining_height = 0`, so the compositor crops nothing. -/
theorem short_page_plan (H S : ℕ) (hH : 0 < H) (hHS : H ≤ S) :
    (H < S →
        slice_plan H S = [⟨(H : ℤ) - (S : ℤ), SliceKind.final⟩]
          ∧ (H : ℤ) - (S : ℤ) ≤ 0
          ∧ remaining_height H S = H)
      ∧ (H = S →
          slice_plan H S = [⟨0, SliceKind.full⟩]
            ∧ remaining_height H S = 0) := by
  constructor
  · intro hlt
    have hmod : H % S = H := Nat.mod_eq_of_lt hlt
    have hdiv : H / S = 0 := Nat.div_eq_of_lt hlt
    refine ⟨?_, by push_cast; omega, hmod⟩
    unfold slice_plan num_full_scrolls remaining_height
    rw [hdiv, hmod, if_pos hH]
    simp
  · intro heq
    subst heq
    have hmod : H % H = 0 := Nat.mod_self H
    have hdiv : H / H = 1 := Nat.div_self hH
    refine ⟨?_, hmod⟩
    unfold slice_plan num_full_scrolls remaining_height
    rw [hdiv, hmod]
    norm_num [List.range_succ]

/-- Invariant of the stitching loop: starting from slice `i` with
`y_offset = i * S`, the loop fills rows `i*S .. H-1` of the canvas with the
document's rows and leaves the rows below `i*S` as they were. -/
theorem stitch_loop_invariant (doc : ℕ → ℕ → Pixel) (W H S : ℕ) (hS : 0 < S)
    (hHS : S ≤ H) :
    ∀ k i c, i + k = num_full_scrolls H S →
      ∀ x y, x < W → y < H →
        (stitch_loop (remaining_height H S) H
            (((List.range' i k).map fun j => snapshotAt doc W S (j * S))
              ++ (if 0 < remaining_height H S then
                    [crop_final (snapshotAt doc W S (H - S))
                      (remaining_height H S)]
                  else []))
            (i * S) c).pixel x y
          = if i * S ≤ y then doc x y else c.pixel x y := by
  have hmod : remaining_height H S < S := Nat.mod_lt H hS
  have heq : num_full_scrolls H S * S + remaining_height H S = H := by
    unfold num_full_scrolls remaining_height
    rw [mul_comm]
    exact Nat.div_add_mod H S
  intro k
  induction k with
  | zero =>
    intro i c hik x y hx hy
    have hi : i = num_full_scrolls H S := by omega
    subst hi
    rcases Nat.eq_zero_or_pos (remaining_height H S) with h0 | hpos
    · rw [h0] at heq ⊢
      simp only [List.range'_zero, List.map_nil, List.nil_append,
        lt_irrefl, if_false, stitch_loop]
      rw [if_neg (by omega)]
    · rw [if_pos hpos]
      simp only [List.range'_zero, List.map_nil, List.nil_append, stitch_loop]
      rw [ite_self]
      simp only [stitch_entry, List.isEmpty_nil, true_and, if_pos hpos,
        crop_final, snapshotAt, Image.crop, Image.paste]
      split_ifs <;>
        first
          | rfl
          | (congr <;> omega)
          | (exfalso; omega)
  | succ k ih =>
    intro i c hik x y hx hy
    have hi1 : i + 1 ≤ num_full_scrolls H S := by omega
    have hmul : (i + 1) * S = i * S + S := Nat.succ_mul i S
    have hnS : i * S + S ≤ num_full_scrolls H S * S := by
      rw [← hmul]
      exact Nat.mul_le_mul_right S hi1
    rw [List.range'_succ]
    simp only [List.map_cons, List.cons_append, stitch_loop, List.append_eq]
    have hentry : stitch_entry (remaining_height H S)
        (snapshotAt doc W S (i * S))
        (((List.range' (i + 1) k).map fun j => snapshotAt doc W S (j * S))
          ++ (if 0 < remaining_height H S then
                [crop_final (snapshotAt doc W S (H - S))
                  (remaining_height H S)]
              else []))
        = snapshotAt doc W S (i * S) := by
      unfold stitch_entry
      rcases Nat.eq_zero_or_pos (remaining_height H S) with h0 | hpos
      · rw [if_neg]
        rintro ⟨-, h⟩
        omega
      · rw [if_neg]
        rintro ⟨hempt, -⟩
        rw [if_pos hpos] at hempt
        simp at hempt
    have hph : paste_height (remaining_height H S) H
        (snapshotAt doc W S (i * S))
        (((List.range' (i + 1) k).map fun j => snapshotAt doc W S (j * S))
          ++ (if 0 < remaining_height H S then
                [crop_final (snapshotAt doc W S (H - S))
                  (remaining_height H S)]
              else []))
        (i * S) = S := by
      unfold paste_height
      rw [hentry]
      show min S (H - i * S) = S
      omega
    rw [hentry, hph]
    by_cases hbr : H ≤ i * S + S
    · rw [if_pos hbr]
      simp only [Image.paste, snapshotAt]
      split_ifs <;>
        first
          | rfl
          | (congr <;> omega)
          | (exfalso; omega)
    · rw [if_neg hbr, ← hmul,
        ih (i + 1) _ (by omega) x y hx hy]
      simp only [Image.paste, snapshotAt]
      split_ifs <;>
        first
          | rfl
          | (congr <;> omega)
          | (exfalso; omega)

/-- For `0 < S ≤ H` the captured page exists, has the document's exact
extent, and reproduces the document pixel for pixel. -/
theorem capture_seamless (doc : ℕ → ℕ → Pixel) (W H S : ℕ) (hS : 0 < S)
    (hHS : S ≤ H) :
    ∃ img, capture_full_page doc W H S = some img
      ∧ img.width = W ∧ img.height = H
      ∧ ∀ x y, x < W → y < H → img.pixel x y = doc x y := by
  have htn : ((H : ℤ) - (S : ℤ)).toNat = H - S := by omega
  have hacq : acquire_screenshots doc W H S
      = ((List.range' 0 (num_full_scrolls H S)).map fun j =>
          snapshotAt doc W S (j * S))
        ++ (if 0 < remaining_height H S then
              [crop_final (snapshotAt doc W S (H - S)) (remaining_height H S)]
            else []) := by
    unfold acquire_screenshots
    rw [htn, List.range_eq_range']
  have hn : 1 ≤ num_full_scrolls H S :=
    (Nat.one_le_div_iff hS).mpr hHS
  have hne : (acquire_screenshots doc W H S).isEmpty = false := by
    rw [hacq]
    have : 0 < (((List.range' 0 (num_full_scrolls H S)).map fun j =>
        snapshotAt doc W S (j * S)) ++ (if 0 < remaining_height H S then
          [crop_final (snapshotAt doc W S (H - S)) (remaining_height H S)]
        else [])).length := by
      rw [List.length_append, List.length_map, List.length_range']
      omega
    by_contra hc
    rw [Bool.not_eq_false, List.isEmpty_iff] at hc
    rw [hc] at this
    simp at this
  refine ⟨(stitch_loop (remaining_height H S) H (acquire_screenshots doc W H S)
      0 (Image.new W H)).crop 0 0 W H, ?_, ?_, ?_, ?_⟩
  · unfold capture_full_page capture_composite
    rw [hne]
    simp
  · simp [Image.crop]
  · simp [Image.crop]
  · intro x y hx hy
    have hinv := stitch_loop_invariant doc W H S hS hHS
      (num_full_scrolls H S) 0 (Image.new W H) (by omega) x y hx hy
    rw [Nat.zero_mul] at hinv
    rw [← hacq] at hinv
    simp only [Image.crop, Nat.zero_add, Nat.add_zero, zero_add]
    rw [hinv, if_pos (Nat.zero_le y)]

/-- C4: whenever the compositor produces a stitched image, its dimensions
are exactly `(DocumentGeometry.width, DocumentGeometry.height)`, for every
screenshot list, slice count and remainder. -/
theorem composite_dims (ss : List Image) (W H rem : ℕ) (img : Image)
    (h : capture_composite ss W H rem = some img) :
    img.width = W ∧ img.height = H := by
  unfold capture_composite at h
  split_ifs at h
  obtain rfl : _ = img := Option.some_inj.mp h
  constructor <;> simp [Image.crop]

/-- C5: if the acquisition loop yields zero screenshots, `capture_full_page`
returns the failure value `none` rather than any bitmap. -/
theorem composite_empty_fails (W H rem : ℕ) :
    capture_composite [] W H rem = none := rfl

/-- C3: when `remaining_height > 0` (and the page spans at least one
viewport), the compositor uses of the final slice only its bottom
`remaining_height` rows: the final screenshot is the snapshot at
`full_height - S` cropped from row `S - remaining_height`, it has height
`remaining_height`, it is pasted at `y_offset = num_full_scrolls * S`, so
the stitched rows from `num_full_scrolls * S` on are exactly the final
snapshot's bottom rows, while the lower rows keep the prior full slices'
content. -/
theorem final_slice_tail (doc : ℕ → ℕ → Pixel) (W H S : ℕ) (hS : 0 < S)
    (hHS : S ≤ H) (hrem : 0 < remaining_height H S) :
    (acquire_screenshots doc W H S).getLast?
        = some (crop_final (snapshotAt doc W S (H - S)) (remaining_height H S))
      ∧ (crop_final (snapshotAt doc W S (H - S))
          (remaining_height H S)).height = remaining_height H S
      ∧ (∀ x r,
          (crop_final (snapshotAt doc W S (H - S))
              (remaining_height H S)).pixel x r
            = (snapshotAt doc W S (H - S)).pixel x
                (S - remaining_height H S + r))
      ∧ ∃ img, capture_full_page doc W H S = some img
          ∧ (∀ x y, x < W → num_full_scrolls H S * S ≤ y → y < H →
              img.pixel x y
                = (snapshotAt doc W S (H - S)).pixel x
                    (S - remaining_height H S + (y - num_full_scrolls H S * S)))
          ∧ (∀ x y, x < W → y < num_full_scrolls H S * S →
              img.pixel x y = doc x y) := by
  have hmod : remaining_height H S < S := Nat.mod_lt H hS
  have heq : num_full_scrolls H S * S + remaining_height H S = H := by
    unfold num_full_scrolls remaining_height
    rw [mul_comm]
    exact Nat.div_add_mod H S
  have htn : ((H : ℤ) - (S : ℤ)).toNat = H - S := by omega
  obtain ⟨img, himg, hw, hh, hpix⟩ := capture_seamless doc W H S hS hHS
  refine ⟨?_, ?_, ?_, img, himg, ?_, ?_⟩
  · unfold acquire_screenshots
    rw [htn, if_pos hrem, List.getLast?_concat]
  · simp only [crop_final, snapshotAt, Image.crop]
    omega
  · intro x r
    simp only [crop_final, snapshotAt, Image.crop]
    congr 1 <;> omega
  · intro x y hx hy1 hy2
    rw [hpix x y hx hy2]
    simp only [snapshotAt]
    congr 1
    omega
  · intro x y hx hy
    exact hpix x y hx (by omega)

/-- C10: for positive document height and snapshot height the acquisition
loop always records at least one screenshot, so the zero-screenshot failure
branch is unreachable and the capture returns a stitched image. -/
theorem capture_never_empty (doc : ℕ → ℕ → Pixel) (W H S : ℕ)
    (hH : 0 < H) (hS : 0 < S) :
    acquire_screenshots doc W H S ≠ []
      ∧ ∃ img, capture_full_page doc W H S = some img := by
  have hlen : 0 < (acquire_screenshots doc W H S).length := by
    unfold acquire_screenshots
    rw [List.length_append, List.length_map, List.length_range]
    rcases le_or_lt S H with hle | hlt
    · have : 1 ≤ num_full_scrolls H S := (Nat.one_le_div_iff hS).mpr hle
      omega
    · have : remaining_height H S = H := Nat.mod_eq_of_lt hlt
      rw [if_pos (by omega)]
      simp
  have hne : acquire_screenshots doc W H S ≠ [] := by
    intro h
    rw [h] at hlen
    simp at hlen
  refine ⟨hne, ?_⟩
  unfold capture_full_page capture_composite
  rw [if_neg (by simpa [List.isEmpty_iff] using hne)]
  exact ⟨_, rfl⟩

/-- Pixel-identity is reflexive. -/
theorem Image.equiv_refl (a : Image) : a.equiv a := ⟨rfl, rfl, fun _ _ => rfl⟩

/-- Cropping two pixel-identical bitmaps identically yields pixel-identical
bitmaps. -/
theorem Image.equiv_crop {a b : Image} (h : a.equiv b) (l t r bt : ℕ) :
    (a.crop l t r bt).equiv (b.crop l t r bt) :=
  ⟨rfl, rfl, fun x y => h.2.2 (l + x) (t + y)⟩

/-- Pasting pixel-identical bitmaps onto pixel-identical canvases yields
pixel-identical canvases. -/
theorem Image.equiv_paste {c₁ c₂ i₁ i₂ : Image} (hc : c₁.equiv c₂)
    (hi : i₁.equiv i₂) (x0 y0 : ℕ) :
    (c₁.paste i₁ x0 y0).equiv (c₂.paste i₂ x0 y0) := by
  obtain ⟨hw, hh, hp⟩ := hi
  obtain ⟨hcw, hch, hcp⟩ := hc
  refine ⟨hcw, hch, fun x y => ?_⟩
  simp only [Image.paste]
  rw [hw, hh]
  split_ifs
  · exact hp _ _
  · exact hcp x y

/-- The per-entry crop decision depends only on pixel-identity data. -/
theorem stitch_entry_equiv {i₁ i₂ : Image} {r₁ r₂ : List Image} (rem : ℕ)
    (hi : i₁.equiv i₂) (hr : r₁.isEmpty = r₂.isEmpty) :
    (stitch_entry rem i₁ r₁).equiv (stitch_entry rem i₂ r₂) := by
  unfold stitch_entry
  rw [hr]
  split_ifs with h
  · obtain ⟨hw, hh, hp⟩ := hi
    refine ⟨?_, ?_, fun x y => ?_⟩
    · simp [Image.crop, hw]
    · simp [Image.crop, hh]
    · simp only [Image.crop]
      rw [hh]
      exact hp _ _
  · exact hi

/-- The stitching loop maps pixel-identical inputs to pixel-identical
outputs. -/
theorem stitch_loop_equiv (rem H : ℕ) :
    ∀ {ss₁ ss₂ : List Image}, List.Forall₂ Image.equiv ss₁ ss₂ →
      ∀ y {c₁ c₂ : Image}, c₁.equiv c₂ →
        (stitch_loop rem H ss₁ y c₁).equiv (stitch_loop rem H ss₂ y c₂) := by
  intro ss₁ ss₂ h
  induction h with
  | nil =>
    intro y c₁ c₂ hc
    exact hc
  | cons hi htail ih =>
    intro y c₁ c₂ hc
    rename_i i₁ i₂ r₁ r₂
    have hr : r₁.isEmpty = r₂.isEmpty := by
      cases htail <;> rfl
    have hentry := stitch_entry_equiv rem hi hr
    have hph : paste_height rem H i₁ r₁ y = paste_height rem H i₂ r₂ y := by
      unfold paste_height
      rw [hentry.2.1]
    simp only [stitch_loop]
    rw [hph]
    split_ifs
    · exact Image.equiv_paste hc hentry 0 y
    · exact ih _ (Image.equiv_paste hc hentry 0 y)

/-- C8: the compositor is deterministic and idempotent: run on ordered
screenshot sequences that are pixel-identical entry by entry (in particular,
on the very same sequence a second time), with the same geometry and
remainder, it yields pixel-identical output bitmaps, or fails both times. -/
theorem composite_deterministic (ss₁ ss₂ : List Image) (W H rem : ℕ)
    (h : List.Forall₂ Image.equiv ss₁ ss₂) :
    (capture_composite ss₁ W H rem = none
        ∧ capture_composite ss₂ W H rem = none)
      ∨ ∃ i₁ i₂, capture_composite ss₁ W H rem = some i₁
          ∧ capture_composite ss₂ W H rem = some i₂ ∧ i₁.equiv i₂ := by
  cases h with
  | nil => exact Or.inl ⟨rfl, rfl⟩
  | cons hi htail =>
    right
    exact ⟨_, _, rfl, rfl,
      Image.equiv_crop
        (stitch_loop_equiv rem H (List.Forall₂.cons hi htail) 0
          (Image.equiv_refl (Image.new W H))) 0 0 W H⟩

/-- One step of the cleanup loop. -/
theorem cleanup_temp_cons (p : String) (rest fs : List String) :
    cleanup_temp (p :: rest) fs
      = cleanup_temp rest (fs.filter fun q => decide (q ≠ p)) := rfl

/-- The cleanup loop only ever deletes files: anything present afterwards
was present before. -/
theorem mem_of_mem_cleanup_temp :
    ∀ (ss fs : List String) (q : String), q ∈ cleanup_temp ss fs → q ∈ fs := by
  intro ss
  induction ss with
  | nil =>
    intro fs q h
    exact h
  | cons p rest ih =>
    intro fs q h
    rw [cleanup_temp_cons] at h
    exact List.mem_of_mem_filter (ih _ q h)

/-- Every path the cleanup loop visits is gone afterwards. -/
theorem not_mem_cleanup_temp :
    ∀ (ss fs : List String) (p : String), p ∈ ss → p ∉ cleanup_temp ss fs := by
  intro ss
  induction ss with
  | nil =>
    intro fs p hp
    cases hp
  | cons a rest ih =>
    intro fs p hp
    rw [cleanup_temp_cons]
    rcases List.mem_cons.mp hp with rfl | hmem
    · intro hin
      have h2 := mem_of_mem_cleanup_temp rest _ p hin
      rcases List.mem_filter.mp h2 with ⟨-, hdec⟩
      simp at hdec
    · exact ih _ p hmem

/-- C6: after any `capture_full_page` call — the loop having completed or
raised after any number of saved slices — every screenshot file recorded in
the `screenshots` list has been deleted by the `finally` block. -/
theorem capture_cleanup (crf : String) (H S : ℕ) (failAfter : Option ℕ)
    (fs : List String) (p : String)
    (hp : p ∈ recorded_paths (temp_paths crf H S) failAfter) :
    p ∉ fs_after_capture crf H S failAfter fs :=
  not_mem_cleanup_temp _ _ p hp

/-- C9: the viewport snapshot height is discovered at most once: the
discovery branch runs exactly when the cached value is falsy (`None` in
`__init__`), the first run stores the probed height, and once a positive
height is cached no later call modifies it. -/
theorem screenshot_height_frozen (h p q : ℕ) (hh : 0 < h) :
    falsy_height init_screenshot_height = true
      ∧ update_screenshot_height init_screenshot_height h = some h
      ∧ falsy_height (some h) = false
      ∧ update_screenshot_height (some h) p = some h
      ∧ update_screenshot_height
          (update_screenshot_height init_screenshot_height h) q = some h := by
  have hf : falsy_height (some h) = false := by
    simp only [falsy_height, decide_eq_false_iff_not]
    omega
  refine ⟨rfl, rfl, hf, ?_, ?_⟩
  · unfold update_screenshot_height
    rw [hf]
    simp
  · show update_screenshot_height (some h) q = some h
    unfold update_screenshot_height
    rw [hf]
    simp

/-- Witness for `slice_plan_spec` at `H = 1000, S = 400`. -/
theorem slice_plan_spec_witness :
    (0 < 1000 ∧ 0 < 400)
      ∧ ((slice_plan 1000 400).length
            = num_full_scrolls 1000 400
                + (if 0 < remaining_height 1000 400 then 1 else 0)
          ∧ (∀ i, i < num_full_scrolls 1000 400 →
              (slice_plan 1000 400).getD i ⟨0, SliceKind.final⟩
                = ⟨((i * 400 : ℕ) : ℤ), SliceKind.full⟩)
          ∧ (0 < remaining_height 1000 400 →
              (slice_plan 1000 400).getLast?
                = some ⟨(1000 : ℤ) - (400 : ℤ), SliceKind.final⟩)
          ∧ (remaining_height 1000 400 = 0 →
              ∀ sl ∈ slice_plan 1000 400, sl.kind = SliceKind.full)
          ∧ num_full_scrolls 1000 400 * 400
              + (1000 - num_full_scrolls 1000 400 * 400) = 1000
          ∧ (0 < remaining_height 1000 400 →
              ∀ sl ∈ slice_plan 1000 400,
                sl.scroll_target ≤ (1000 : ℤ) - (400 : ℤ))) :=
  ⟨⟨by decide, by decide⟩, slice_plan_spec 1000 400 (by decide) (by decide)⟩

/-- Witness for `short_page_plan` at `H = 300, S = 400`. -/
theorem short_page_plan_witness :
    (0 < 300 ∧ 300 ≤ 400)
      ∧ ((300 < 400 →
            slice_plan 300 400 = [⟨(300 : ℤ) - (400 : ℤ), SliceKind.final⟩]
              ∧ (300 : ℤ) - (400 : ℤ) ≤ 0
              ∧ remaining_height 300 400 = 300)
          ∧ (300 = 400 →
              slice_plan 300 400 = [⟨0, SliceKind.full⟩]
                ∧ remaining_height 300 400 = 0)) :=
  ⟨⟨by decide, by decide⟩, short_page_plan 300 400 (by decide) (by decide)⟩

/-- Witness for `composite_dims` on a concrete screenshot list. -/
theorem composite_dims_witness :
    (capture_composite [Image.new 3 4] 3 4 0
        = some ((stitch_loop 0 4 [Image.new 3 4] 0 (Image.new 3 4)).crop 0 0 3 4))
      ∧ ((stitch_loop 0 4 [Image.new 3 4] 0 (Image.new 3 4)).crop 0 0 3 4).width = 3
      ∧ ((stitch_loop 0 4 [Image.new 3 4] 0 (Image.new 3 4)).crop 0 0 3 4).height
          = 4 :=
  ⟨rfl, composite_dims [Image.new 3 4] 3 4 0 _ rfl⟩

/-- Witness for `final_slice_tail` at `W = 2, H = 5, S = 2` on a concrete
document. -/
theorem final_slice_tail_witness :
    (0 < 2 ∧ 2 ≤ 5 ∧ 0 < remaining_height 5 2)
      ∧ ((acquire_screenshots (fun x y => x + y) 2 5 2).getLast?
            = some (crop_final (snapshotAt (fun x y => x + y) 2 2 (5 - 2))
                (remaining_height 5 2))
          ∧ (crop_final (snapshotAt (fun x y => x + y) 2 2 (5 - 2))
              (remaining_height 5 2)).height = remaining_height 5 2
          ∧ (∀ x r, (crop_final (snapshotAt (fun x y => x + y) 2 2 (5 - 2))
                (remaining_height 5 2)).pixel x r
                = (snapshotAt (fun x y => x + y) 2 2 (5 - 2)).pixel x
                    (2 - remaining_height 5 2 + r))
          ∧ ∃ img, capture_full_page (fun x y => x + y) 2 5 2 = some img
              ∧ (∀ x y, x < 2 → num_full_scrolls 5 2 * 2 ≤ y → y < 5 →
                  img.pixel x y
                    = (snapshotAt (fun x y => x + y) 2 2 (5 - 2)).pixel x
                        (2 - remaining_height 5 2
                          + (y - num_full_scrolls 5 2 * 2)))
              ∧ (∀ x y, x < 2 → y < num_full_scrolls 5 2 * 2 →
                  img.pixel x y = x + y)) :=
  ⟨⟨by decide, by decide, by decide⟩,
   final_slice_tail (fun x y => x + y) 2 5 2 (by decide) (by decide)
     (by decide)⟩

/-- Witness for `capture_never_empty` at `H = 300, S = 400` (the short-page
regime). -/
theorem capture_never_empty_witness :
    (0 < 300 ∧ 0 < 400)
      ∧ (acquire_screenshots (fun _ _ => 7) 1 300 400 ≠ []
          ∧ ∃ img, capture_full_page (fun _ _ => 7) 1 300 400 = some img) :=
  ⟨⟨by decide, by decide⟩,
   capture_never_empty (fun _ _ => 7) 1 300 400 (by decide) (by decide)⟩

/-- Witness for `composite_deterministic` on a concrete screenshot list
paired with itself. -/
theorem composite_deterministic_witness :
    List.Forall₂ Image.equiv [Image.new 2 2] [Image.new 2 2]
      ∧ ((capture_composite [Image.new 2 2] 2 2 0 = none
            ∧ capture_composite [Image.new 2 2] 2 2 0 = none)
          ∨ ∃ i₁ i₂, capture_composite [Image.new 2 2] 2 2 0 = some i₁
              ∧ capture_composite [Image.new 2 2] 2 2 0 = some i₂
              ∧ i₁.equiv i₂) :=
  ⟨List.Forall₂.cons ⟨rfl, rfl, fun _ _ => rfl⟩ List.Forall₂.nil,
   composite_deterministic [Image.new 2 2] [Image.new 2 2] 2 2 0
     (List.Forall₂.cons ⟨rfl, rfl, fun _ _ => rfl⟩ List.Forall₂.nil)⟩

/-- Witness for `capture_cleanup`: a call that raised after one saved slice
still leaves no recorded artifact behind. -/
theorem capture_cleanup_witness :
    ("temp_page_0.png" ∈ recorded_paths (temp_paths "page" 1000 400) (some 1))
      ∧ "temp_page_0.png"
          ∉ fs_after_capture "page" 1000 400 (some 1) ["other.png"] :=
  ⟨by decide,
   capture_cleanup "page" 1000 400 (some 1) ["other.png"] "temp_page_0.png"
     (by decide)⟩

/-- Witness for `screenshot_height_frozen` with discovery height 1080. -/
theorem screenshot_height_frozen_witness :
    0 < 1080
      ∧ (falsy_height init_screenshot_height = true
          ∧ update_screenshot_height init_screenshot_height 1080 = some 1080
          ∧ falsy_height (some 1080) = false
          ∧ update_screenshot_height (some 1080) 999 = some 1080
          ∧ update_screenshot_height
              (update_screenshot_height init_screenshot_height 1080) 777
              = some 1080) :=
  ⟨by decide, screenshot_height_frozen 1080 999 777 (by decide)⟩

end CrfCapture
